import Mathlib

/-!
Verification of the Ax service generator bridge
(`optimas/generators/ax/service/base.py`).

The development shallowly embeds the trial-lifecycle bridge of the
`AxServiceGenerator` class: the search-space translator
(`_create_ax_parameters`), the ask/tell bridge (`_ask`, `_tell`), the
initialization-budget adjustment performed on trial attach, the
best-value / Pareto selector (`_get_best_values`) and the serialization
guard (`_prepare_to_send`, `_update`).  The external Ax engine is treated
as a black box and is modelled only through the interface it presents to
the bridge (ask / attach / fetch-by-id / complete / mark / best-point /
Pareto-set / generation-plan introspection).  Numeric parameter and
objective values are abstracted to `Int`; nothing in the bridge's control
flow depends on their arithmetic beyond order comparisons.
-/

namespace Optimas

/-- Equality of `Except` results is decidable when both component types
have decidable equality (used to evaluate the model on concrete inputs). -/
instance instDecEqExcept {α β : Type} [DecidableEq α] [DecidableEq β] :
    DecidableEq (Except α β)
  | .error a, .error b =>
    if h : a = b then .isTrue (by rw [h])
    else .isFalse (by intro q; cases q; exact h rfl)
  | .error _, .ok _ => .isFalse (by intro q; cases q)
  | .ok _, .error _ => .isFalse (by intro q; cases q)
  | .ok a, .ok b =>
    if h : a = b then .isTrue (by rw [h])
    else .isFalse (by intro q; cases q; exact h rfl)

/-- Kind character of a numpy dtype, as returned by `np.dtype(x).kind`:
`f` floating point, `i` signed integer, `b` boolean, `u` unicode text. -/
inductive NpKind
  | f
  | i
  | b
  | u
deriving DecidableEq, Repr

/-- `optimas.core.VaryingParameter`: an input parameter of the
optimization, with bounds, an optional fixed default and optional
fidelity information.  The dtype is represented by its numpy kind. -/
structure VaryingParameter where
  name : String
  dtypeKind : NpKind
  lower_bound : Int
  upper_bound : Int
  is_fixed : Bool
  default_value : Int
  is_fidelity : Bool
  fidelity_target_value : Int
deriving DecidableEq, Repr

/-- `optimas.core.Objective`: an optimization objective. -/
structure Objective where
  name : String
  minimize : Bool
deriving DecidableEq, Repr

/-- One Ax range-parameter specification, as built by
`_create_ax_parameters` (a dict with keys `name`, `type`, `bounds`,
`is_fidelity`, `target_value`, `value_type`). -/
structure AxRangeParameter where
  name : String
  type : String
  bounds : Int × Int
  is_fidelity : Bool
  target_value : Int
  value_type : String
deriving DecidableEq, Repr

/-- The error message raised by `_create_ax_parameters` for a dtype that
is neither floating point nor integral.  In the source the string is a
plain literal (the f-string prefix is missing), so the placeholder text
is part of the message and the message is the same for every parameter. -/
def axDtypeErrorMsg : String :=
  "Ax range parameter can only be of type \x27float\x27ot \x27int\x27, not \x7bvar.dtype\x7d."

/-- Python-dict insertion: overwrite the value when the key is present,
append at the end otherwise. -/
def dictInsert {α : Type} (d : List (String × α)) (k : String) (v : α) :
    List (String × α) :=
  if d.any (fun p => p.1 == k) then
    d.map (fun p => if p.1 == k then (k, v) else p)
  else
    d ++ [(k, v)]

/-- Python-dict lookup `d.get(k)`: `none` when the key is absent. -/
def dictGet {α : Type} (d : List (String × α)) (k : String) : Option α :=
  (d.find? (fun p => p.1 == k)).map (fun p => p.2)

/-- The value type a float/int parameter classifies to in
`_create_ax_parameters` (`"float"` for kind `f`, `"int"` for kind `i`;
only reached under that guard). -/
def specValueType (k : NpKind) : String :=
  match k with
  | .f => "float"
  | _ => "int"

/-- The range spec `_create_ax_parameters` builds for one parameter whose
dtype classified to `value_type`. -/
def mkRangeSpec (var : VaryingParameter) (value_type : String) : AxRangeParameter :=
  { name := var.name, type := "range",
    bounds := (var.lower_bound, var.upper_bound),
    is_fidelity := var.is_fidelity,
    target_value := var.fidelity_target_value,
    value_type := value_type }

/-- Loop body of `_create_ax_parameters`: for each parameter, classify
its dtype kind (`f` gives value type `float`, `i` gives `int`, anything
else raises `ValueError` with the fixed message), append the range spec
and collect fixed parameters into the fixed-parameter dict. -/
def createAxParametersGo : List VaryingParameter → List AxRangeParameter →
    List (String × Int) → Except String (List AxRangeParameter × List (String × Int))
  | [], parameters, fixed_parameters => .ok (parameters, fixed_parameters)
  | var :: rest, parameters, fixed_parameters =>
    if var.dtypeKind = .f ∨ var.dtypeKind = .i then
      createAxParametersGo rest
        (parameters ++ [mkRangeSpec var (specValueType var.dtypeKind)])
        (if var.is_fixed then dictInsert fixed_parameters var.name var.default_value
         else fixed_parameters)
    else .error axDtypeErrorMsg

/-- `_create_ax_parameters`: translate the varying parameters into Ax
range specs and rebuild the fixed-feature overlay (the dict stored in
`self._fixed_features` as `ObservationFeatures`). -/
def createAxParameters (vps : List VaryingParameter) :
    Except String (List AxRangeParameter × List (String × Int)) :=
  createAxParametersGo vps [] []

/-- Python exceptions distinguished by the bridge's control flow:
`attributeError` (missing `ax_trial_id` attribute, the only exception the
resolution step of `_tell` catches), `keyError` (engine fetch/complete with an
unknown trial index), `typeError` (engine without fixed-feature support),
`unboundLocalError` (a local referenced before assignment inside the
`finally` block), `valueError` (explicit `raise ValueError`) and
`engineError` (any other failure inside the external engine, e.g. of
`attach_trial` or `get_next_trial`). -/
inductive PyExc
  | attributeError
  | keyError
  | typeError
  | unboundLocalError
  | valueError (msg : String)
  | engineError
deriving DecidableEq, Repr

/-- Status of a trial inside the Ax engine. -/
inductive AxTrialStatus
  | pending
  | completed
  | abandoned
  | failed
deriving DecidableEq, Repr

/-- A trial owned by the Ax engine, as visible through the bridge: its
status, the parameters it was created with and the raw outcome data
submitted on completion. -/
structure AxTrial where
  status : AxTrialStatus
  params : List (String × Option Int)
  raw_data : List (String × (Int × Int))
deriving DecidableEq, Repr

/-- The model registry entry driving a generation step
(`Models.SOBOL` quasi-random phase vs. `Models.GPEI` model-based). -/
inductive ModelKind
  | SOBOL
  | GPEI
deriving DecidableEq, Repr

/-- One `GenerationStep` of the Ax generation strategy: its model kind,
its `num_trials` quota and the threshold of its first transition
criterion (`transition_criteria[0].threshold`). -/
structure GenerationStep where
  model : ModelKind
  num_trials : Int
  threshold : Int
deriving DecidableEq, Repr

/-- The Ax `GenerationStrategy`, through the interface the bridge uses:
the ordered steps, the index of the current step, the number of trials
generated in the current step, and the fitted surrogate-model references
(`_curr.model_spec._fitted_model` and `_model`, each an abstract handle). -/
structure GenerationStrategy where
  steps : List GenerationStep
  currIndex : Nat
  trialsInCurrStep : Nat
  curr_fitted_model : Option Nat
  fitted : Option Nat
deriving DecidableEq, Repr

/-- The current generation step (`generation_strategy.current_step`). -/
def GenerationStrategy.currentStep (gs : GenerationStrategy) : Option GenerationStep :=
  gs.steps.get? gs.currIndex

/-- `generation_strategy._maybe_move_to_next_step()`, modelled through
the engine interface the spec presents (generation-plan introspection):
advance to the next step when the current step's transition criterion is
met, i.e. when the trials generated in the step have reached the
threshold, and a further step exists. -/
def maybeMoveToNextStep (gs : GenerationStrategy) : GenerationStrategy :=
  match gs.steps.get? gs.currIndex with
  | none => gs
  | some cs =>
    if cs.threshold ≤ (gs.trialsInCurrStep : Int) ∧ gs.currIndex + 1 < gs.steps.length then
      { gs with currIndex := gs.currIndex + 1, trialsInCurrStep := 0 }
    else gs

/-- The Ax client, through the interface the bridge uses.  `trials` is
the engine's trial table, indexed by trial index (list position).
`next_points` is the stream of parameterizations `get_next_trial` will
return; an exhausted stream models an engine-side generation failure.
`attach_ok` models whether `attach_trial` succeeds.  `best_parameters`
and `pareto` are the values the engine's best-point and Pareto-set
queries return (the prediction/covariance components, which `_get_best_values`
discards, are not modelled). -/
structure AxClient where
  trials : List AxTrial
  generation_strategy : GenerationStrategy
  outcome_constraint_metrics : List String
  supports_fixed_features : Bool
  attach_ok : Bool
  next_points : List (List (String × Int))
  best_parameters : Option (List (String × Int))
  pareto : List (List (String × Int) × List (String × Int))
deriving DecidableEq, Repr

/-- `ax_client.get_trial(trial_index)`: fetch by index, raising
`KeyError` when the engine does not know the trial. -/
def get_trial (c : AxClient) (trial_index : Nat) : Except PyExc AxTrial :=
  match c.trials.get? trial_index with
  | some t => .ok t
  | none => .error .keyError

/-- `ax_client.attach_trial(params)`: register an externally-produced
trial and return its new trial index.  Attached trials are not generated
by the generation strategy, so they leave its counters untouched. -/
def attach_trial (c : AxClient) (params : List (String × Option Int)) :
    Except PyExc (AxClient × Nat) :=
  if c.attach_ok then
    .ok ({ c with trials := c.trials ++ [⟨.pending, params, []⟩] }, c.trials.length)
  else .error .engineError

/-- `ax_client.get_next_trial(...)`: raise `TypeError` when called with
the `fixed_features` argument on an engine that does not support it;
otherwise pop the next parameterization, register the new engine trial
and count it towards the current generation step. -/
def get_next_trial (c : AxClient) (useFixedFeatures : Bool) :
    Except PyExc (AxClient × List (String × Int) × Nat) :=
  if useFixedFeatures ∧ ¬c.supports_fixed_features then .error .typeError
  else
    match c.next_points with
    | [] => .error .engineError
    | p :: rest =>
      let idx := c.trials.length
      let gs := maybeMoveToNextStep
        { c.generation_strategy with
          trialsInCurrStep := c.generation_strategy.trialsInCurrStep + 1 }
      .ok ({ c with
              trials := c.trials ++ [⟨.pending, p.map (fun q => (q.1, some q.2)), []⟩],
              next_points := rest,
              generation_strategy := gs },
            p, idx)

/-- `ax_client.complete_trial(trial_index, raw_data)`: record the raw
outcome data and move the engine trial to `completed`; raises on an
unknown index. -/
def complete_trial (c : AxClient) (trial_index : Nat)
    (raw_data : List (String × (Int × Int))) : Except PyExc AxClient :=
  match c.trials.get? trial_index with
  | none => .error .keyError
  | some t =>
    .ok { c with
          trials := c.trials.set trial_index
            { t with status := .completed, raw_data := raw_data } }

/-- `ax_trial.mark_abandoned()` / `ax_trial.mark_failed()` on a
previously fetched engine trial, identified by its index. -/
def mark_trial (c : AxClient) (trial_index : Nat) (s : AxTrialStatus) : AxClient :=
  match c.trials.get? trial_index with
  | none => c
  | some t => { c with trials := c.trials.set trial_index { t with status := s } }

/-- Status of an optimas `Trial` as far as the bridge inspects it
(`trial.completed`, `trial.failed`, `trial.status != TrialStatus.FAILED`). -/
inductive TrialStatus
  | candidate
  | completed
  | failed
deriving DecidableEq, Repr

/-- One objective or analyzed-parameter evaluation attached to a trial:
the evaluated parameter's name, the value and the standard error. -/
structure Evaluation where
  name : String
  value : Int
  sem : Int
deriving DecidableEq, Repr

/-- The optimas `Trial` record, restricted to the fields the bridge
reads and writes.  `ax_trial_id = none` models the attribute being
absent (its access raises `AttributeError`); `parameter_values` entries
are `Option` because `_ask` fills them from `parameters.get(...)`, which
yields `None` for a missing name. -/
structure Trial where
  varying_parameters : List VaryingParameter
  parameter_values : List (Option Int)
  status : TrialStatus
  ax_trial_id : Option Nat
  objective_evaluations : List Evaluation
  parameter_evaluations : List Evaluation
deriving DecidableEq, Repr

/-- `trial.completed`. -/
def Trial.completed (t : Trial) : Bool := t.status = .completed

/-- `trial.failed`. -/
def Trial.failed (t : Trial) : Bool := t.status = .failed

/-- The generator configuration fields `_tell` consults:
`enforce_n_init`, `abandon_failed_trials`, the declared varying
parameters and objectives, and whether the installed Ax version is at
least 0.3.5 (the branch that also decrements the transition-criterion
threshold). -/
structure GenConfig where
  varying_parameters : List VaryingParameter
  objectives : List Objective
  enforce_n_init : Bool
  abandon_failed_trials : Bool
  modern_ax : Bool
deriving DecidableEq, Repr

/-- Engine operations invoked by the bridge, recorded as a trace so that
"runs exactly once" and "is still attempted" properties are statable. -/
inductive EngineCall
  | getNextTrialWithFeatures
  | getNextTrialPlain
  | attachTrial (params : List (String × Option Int))
  | getTrial (trial_index : Nat)
  | completeTrial (trial_index : Nat) (raw_data : List (String × (Int × Int)))
  | markAbandoned (trial_index : Nat)
  | markFailed (trial_index : Nat)
deriving DecidableEq, Repr

/-- The params dict `_tell` builds for `attach_trial`:
`params[var.name] = value` over `zip(trial.varying_parameters,
trial.parameter_values)`. -/
def buildParams (trial : Trial) : List (String × Option Int) :=
  (trial.varying_parameters.zip trial.parameter_values).foldl
    (fun d p => dictInsert d p.1.name p.2) []

/-- The initialization-budget adjustment of `_tell` performed after an
attach: when the current generation step is the Sobol step, decrement
its `num_trials` and (on Ax at least 0.3.5) its first transition
criterion's threshold, then `_maybe_move_to_next_step()`. -/
def reduceInitBudget (modern : Bool) (gs : GenerationStrategy) : GenerationStrategy :=
  match gs.steps.get? gs.currIndex with
  | none => gs
  | some cs =>
    if cs.model = .SOBOL then
      let cs2 :=
        if modern then
          { cs with num_trials := cs.num_trials - 1, threshold := cs.threshold - 1 }
        else { cs with num_trials := cs.num_trials - 1 }
      maybeMoveToNextStep { gs with steps := gs.steps.set gs.currIndex cs2 }
    else gs

/-- The outcome map assembled by `_tell` for a completed trial: each
objective evaluation's `(value, sem)` pair keyed by its name, then — if
the experiment has outcome constraints — each parameter evaluation
whose name appears among the outcome-constraint metric names. -/
def buildOutcomeEvals (c : AxClient) (trial : Trial) : List (String × (Int × Int)) :=
  let objPart := trial.objective_evaluations.foldl
    (fun d ev => dictInsert d ev.name (ev.value, ev.sem)) []
  if c.outcome_constraint_metrics ≠ [] then
    trial.parameter_evaluations.foldl
      (fun d ev =>
        if ev.name ∈ c.outcome_constraint_metrics then
          dictInsert d ev.name (ev.value, ev.sem)
        else d)
      objPart
  else objPart

/-- State reached by the `try`/`except AttributeError` resolution part
of `_tell`'s loop body, on entry to the `finally` block: the engine
state, the recorded engine calls, the binding state of the Python locals
`trial_id` and `ax_trial` (the latter by engine trial index), and the
exception pending propagation, if any. -/
structure ResolveOutcome where
  client : AxClient
  calls : List EngineCall
  trial_id : Option Nat
  ax_trial : Option Nat
  exc : Option PyExc
deriving DecidableEq, Repr

/-- The `try`/`except AttributeError` resolution part of `_tell`'s loop
body.  An absent `ax_trial_id` raises `AttributeError` and is recovered
by attach-then-fetch, followed by the initialization-budget adjustment
for non-failed trials when `enforce_n_init` is off; any other exception
(a `KeyError` from `get_trial`, a failure of `attach_trial`) is not
caught and is left pending for after the `finally` block. -/
def tellResolve (cfg : GenConfig) (c : AxClient) (trial : Trial) : ResolveOutcome :=
  match trial.ax_trial_id with
  | some tid =>
    match get_trial c tid with
    | .ok _ => ⟨c, [.getTrial tid], some tid, some tid, none⟩
    | .error e => ⟨c, [.getTrial tid], some tid, none, some e⟩
  | none =>
    let params := buildParams trial
    match attach_trial c params with
    | .error e => ⟨c, [.attachTrial params], none, none, some e⟩
    | .ok (c1, tid) =>
      match get_trial c1 tid with
      | .error e => ⟨c1, [.attachTrial params, .getTrial tid], some tid, none, some e⟩
      | .ok _ =>
        let c2 :=
          if trial.status ≠ .failed ∧ ¬cfg.enforce_n_init then
            { c1 with
              generation_strategy := reduceInitBudget cfg.modern_ax c1.generation_strategy }
          else c1
        ⟨c2, [.attachTrial params, .getTrial tid], some tid, some tid, none⟩

/-- The `finally` block of `_tell`'s loop body: completed trials submit
the outcome map through `complete_trial(trial_id, ...)`, failed trials
mark the fetched `ax_trial` abandoned or failed per the policy flag.
Referencing a local the resolution part never bound raises
`UnboundLocalError`; an exception raised here replaces the pending one,
and a pending exception propagates once the block finishes normally. -/
def tellFinally (cfg : GenConfig) (r : ResolveOutcome) (trial : Trial) :
    AxClient × List EngineCall × Option PyExc :=
  if trial.completed then
    let outcome_evals := buildOutcomeEvals r.client trial
    match r.trial_id with
    | none => (r.client, r.calls, some .unboundLocalError)
    | some tid =>
      match complete_trial r.client tid outcome_evals with
      | .ok c2 => (c2, r.calls ++ [.completeTrial tid outcome_evals], r.exc)
      | .error e => (r.client, r.calls ++ [.completeTrial tid outcome_evals], some e)
  else if trial.failed then
    match r.ax_trial with
    | none => (r.client, r.calls, some .unboundLocalError)
    | some idx =>
      if cfg.abandon_failed_trials then
        (mark_trial r.client idx .abandoned, r.calls ++ [.markAbandoned idx], r.exc)
      else
        (mark_trial r.client idx .failed, r.calls ++ [.markFailed idx], r.exc)
  else (r.client, r.calls, r.exc)

/-- One iteration of `_tell`'s loop: resolution followed by the
`finally` block. -/
def tellOne (cfg : GenConfig) (c : AxClient) (trial : Trial) :
    AxClient × List EngineCall × Option PyExc :=
  tellFinally cfg (tellResolve cfg c trial) trial

/-- `_tell(trials)`: process the trials in order; an uncaught exception
aborts the remaining iterations. -/
def tellTrials (cfg : GenConfig) (c : AxClient) :
    List Trial → AxClient × List EngineCall × Option PyExc
  | [] => (c, [], none)
  | t :: ts =>
    match tellOne cfg c t with
    | (c1, calls, none) =>
      let r := tellTrials cfg c1 ts
      (r.1, calls ++ r.2.1, r.2.2)
    | (c1, calls, some e) => (c1, calls, some e)

/-- One iteration of `_ask`'s loop: request the next point passing the
fixed-feature overlay, falling back to the overlay-free call when that
raises `TypeError`; then fill the trial's `parameter_values` from the
returned per-name map in `_varying_parameters` order (`parameters.get`
yields `none` for a missing name) and record the engine trial id. -/
def askOne (vps : List VaryingParameter) (c : AxClient) (trial : Trial) :
    Except PyExc (AxClient × Trial) :=
  let r :=
    match get_next_trial c true with
    | .error .typeError => get_next_trial c false
    | r => r
  match r with
  | .error e => .error e
  | .ok (c1, parameters, trial_id) =>
    .ok (c1, { trial with
               parameter_values := vps.map (fun var => dictGet parameters var.name),
               ax_trial_id := some trial_id })

/-- The capability-free request path of `_ask`'s loop body: the retry
executed inside `except TypeError`, i.e. `get_next_trial()` without the
fixed-feature overlay, followed by the same trial-filling code. -/
def askOnePlain (vps : List VaryingParameter) (c : AxClient) (trial : Trial) :
    Except PyExc (AxClient × Trial) :=
  match get_next_trial c false with
  | .error e => .error e
  | .ok (c1, parameters, trial_id) =>
    .ok (c1, { trial with
               parameter_values := vps.map (fun var => dictGet parameters var.name),
               ax_trial_id := some trial_id })

/-- The loop of `_ask`, with the already-processed trials accumulated:
trial objects are mutated one at a time, so when an iteration fails the
earlier trials keep their assignments while the failing trial and the
remaining ones are left untouched. -/
def askLoop (vps : List VaryingParameter) :
    AxClient → List Trial → List Trial → AxClient × List Trial × Option PyExc
  | c, done, [] => (c, done, none)
  | c, done, t :: ts =>
    match askOne vps c t with
    | .error e => (c, done ++ t :: ts, some e)
    | .ok (c1, t1) => askLoop vps c1 (done ++ [t1]) ts

/-- `_ask(trials)`. -/
def askTrials (vps : List VaryingParameter) (c : AxClient) (trials : List Trial) :
    AxClient × List Trial × Option PyExc :=
  askLoop vps c [] trials

/-- `np.argmin` over a list, returning the index and value of the first
occurrence of the minimum (numpy returns the first index in case of
ties); `none` on an empty list, where numpy raises `ValueError`. -/
def npArgmin : List Int → Option (Nat × Int)
  | [] => none
  | x :: xs =>
    match npArgmin xs with
    | none => some (0, x)
    | some (j, v) => if x ≤ v then some (0, x) else some (j + 1, v)

/-- `np.argmax` over a list, returning the index and value of the first
occurrence of the maximum; `none` on an empty list. -/
def npArgmax : List Int → Option (Nat × Int)
  | [] => none
  | x :: xs =>
    match npArgmax xs with
    | none => some (0, x)
    | some (j, v) => if v ≤ x then some (0, x) else some (j + 1, v)

/-- The `objs[objective.name]` extraction of `_get_best_values` over the
Pareto set: the objective's value for each frontier point, raising
`KeyError` at the first point whose objective map lacks the name. -/
def extractObjVals :
    List (List (String × Int) × List (String × Int)) → String → Except PyExc (List Int)
  | [], _ => .ok []
  | p :: ps, name =>
    match dictGet p.2 name with
    | none => .error .keyError
    | some v =>
      match extractObjVals ps name with
      | .error e => .error e
      | .ok vs => .ok (v :: vs)

/-- `_get_best_values(objective)`: resolve the objective by name
(raising `ValueError` for an unknown name); with more than one objective
scan the Pareto set with `np.argmin`/`np.argmax` on the objective's
values and return the extremal frontier point's parameter values; with a
single objective return the engine's best point, or `none` when the
engine found none. -/
def getBestValues (cfg : GenConfig) (c : AxClient) (objName : String) :
    Except PyExc (Option (List (String × Int))) :=
  let objective_names := cfg.objectives.map (fun o => o.name)
  match cfg.objectives.get? (objective_names.indexOf objName) with
  | none => .error (.valueError ("Objective " ++ objName ++ " not found."))
  | some objective =>
    if cfg.objectives.length > 1 then
      match extractObjVals c.pareto objective.name with
      | .error e => .error e
      | .ok obj_vals =>
        let param_vals := c.pareto.map (fun p => p.1)
        match (if objective.minimize then npArgmin obj_vals else npArgmax obj_vals) with
        | none => .error (.valueError "attempt to get argmin of an empty sequence")
        | some (best_obj_i, _) =>
          match param_vals.get? best_obj_i with
          | none => .error .keyError
          | some slice_values => .ok (some slice_values)
    else
      match c.best_parameters with
      | none => .ok none
      | some slice_values => .ok (some slice_values)

/-- `i` is the first index attaining the minimum `v` of `xs` —
`np.argmin` semantics. -/
def IsFirstMin (xs : List Int) (i : Nat) (v : Int) : Prop :=
  xs.get? i = some v ∧ (∀ j w, xs.get? j = some w → v ≤ w) ∧
  (∀ j w, j < i → xs.get? j = some w → v < w)

/-- `i` is the first index attaining the maximum `v` of `xs` —
`np.argmax` semantics. -/
def IsFirstMax (xs : List Int) (i : Nat) (v : Int) : Prop :=
  xs.get? i = some v ∧ (∀ j w, xs.get? j = some w → w ≤ v) ∧
  (∀ j w, j < i → xs.get? j = some w → w < v)

/-- `_prepare_to_send`: when a fitted model is present
(`generation_strategy._model is not None`), null out both the current
step's `model_spec._fitted_model` and `generation_strategy._model`. -/
def prepareToSend (gs : GenerationStrategy) : GenerationStrategy :=
  if gs.fitted.isSome then { gs with curr_fitted_model := none, fitted := none } else gs

/-- Modelled from the spec: `update_object` (in `optimas.utils.other`,
not under `src/`) deep-copies the newer object's fields onto the
original object, so the resulting contents are the snapshot's. -/
def update_object (_orig newObj : AxClient) : AxClient := newObj

/-- A generator observed through its heap references: an abstract store
mapping references to Ax client objects and the reference currently
held in `self._ax_client`. -/
structure GeneratorRefs where
  store : Nat → AxClient
  ax_client_ref : Nat

/-- `_update(new_generator)`: remember the original client reference;
`super()._update` (modelled from the spec: the base class replaces the
generator's attributes with the snapshot's, including the `_ax_client`
reference) makes `self._ax_client` point at the snapshot's client; then
`update_object` copies the snapshot client's fields onto the original
object, and the original reference is restored into `self._ax_client`. -/
def generatorUpdate (g : GeneratorRefs) (newRef : Nat) (newClient : AxClient) :
    GeneratorRefs :=
  let originalRef := g.ax_client_ref
  let store1 := fun r => if r = newRef then newClient else g.store r
  let store2 := fun r =>
    if r = originalRef then update_object (store1 originalRef) (store1 newRef)
    else store1 r
  { store := store2, ax_client_ref := originalRef }

/-! Concrete fixtures used to evaluate the model. -/

/-- A float-dtype varying parameter. -/
def pFloat : VaryingParameter := ⟨"x0", .f, 0, 10, false, 0, false, 0⟩

/-- An int-dtype varying parameter flagged fixed with default 50. -/
def pIntFixed : VaryingParameter := ⟨"steps", .i, 1, 100, true, 50, false, 0⟩

/-- A bool-dtype varying parameter (not translatable). -/
def pBool : VaryingParameter := ⟨"beam_charge", .b, 0, 1, false, 0, false, 0⟩

/-- A quasi-random generation step with 4 trials left. -/
def sobolStep : GenerationStep := ⟨.SOBOL, 4, 4⟩

/-- The model-based generation step following the Sobol one. -/
def gpeiStep : GenerationStep := ⟨.GPEI, -1, 1000⟩

/-- A fresh generation strategy in the Sobol phase. -/
def gsInit : GenerationStrategy := ⟨[sobolStep, gpeiStep], 0, 0, none, none⟩

/-- A fresh engine with one pending generated point. -/
def clientInit : AxClient := ⟨[], gsInit, [], true, true, [[("x0", 3)]], none, []⟩

/-- Like `clientInit` but without fixed-feature support. -/
def clientNoFF : AxClient := ⟨[], gsInit, [], false, true, [[("x0", 3)]], none, []⟩

/-- Like `clientInit` but whose `attach_trial` fails. -/
def clientNoAttach : AxClient := ⟨[], gsInit, [], true, false, [[("x0", 3)]], none, []⟩

/-- A single-objective generator configuration over `pFloat`. -/
def cfg1 : GenConfig := ⟨[pFloat], [⟨"f", true⟩], false, true, true⟩

/-- An externally-evaluated completed trial (no engine trial id). -/
def trialAttach : Trial := ⟨[pFloat], [some 2], .completed, none, [⟨"f", 5, 0⟩], []⟩

/-- A completed trial carrying an engine trial id the engine does not know. -/
def trialStale : Trial := ⟨[pFloat], [some 2], .completed, some 0, [⟨"f", 5, 0⟩], []⟩

/-- A fresh candidate trial before `ask`. -/
def trialEmpty : Trial := ⟨[pFloat], [], .candidate, none, [], []⟩

/-- A two-objective configuration (minimize `f1`, maximize `f2`). -/
def cfgTwoObj : GenConfig := ⟨[pFloat], [⟨"f1", true⟩, ⟨"f2", false⟩], false, true, true⟩

/-- An engine with zero completed trials: no best point, empty Pareto set. -/
def clientNoData : AxClient := ⟨[], gsInit, [], true, true, [], none, []⟩

/-- An engine whose Pareto-set query returns a synthetic 3-point front
with a tie in the minimal `f1` value between the second and third point. -/
def clientPareto : AxClient :=
  ⟨[], gsInit, [], true, true, [], some [("x0", 7)],
   [([("x0", 1)], [("f1", 5), ("f2", 0)]),
    ([("x0", 2)], [("f1", 3), ("f2", 4)]),
    ([("x0", 3)], [("f1", 3), ("f2", 9)])]⟩


/-! ## Helper lemmas -/

/-- A key absent from an association list makes `dictInsert` an append. -/
theorem dictInsert_of_not_mem {α : Type} (d : List (String × α)) (k : String) (v : α)
    (h : ∀ p ∈ d, p.1 ≠ k) : dictInsert d k v = d ++ [(k, v)] := by
  have hany : d.any (fun p => p.1 == k) = false := by
    simp only [List.any_eq_false]
    intro p hp
    simpa using h p hp
  simp [dictInsert, hany]

/-- Translation loop invariant: with only float/int dtypes and distinct
names, `createAxParametersGo` appends one range spec per parameter and
collects the fixed parameters behind the accumulators. -/
theorem createAxParametersGo_ok (vps : List VaryingParameter) :
    ∀ (acc : List AxRangeParameter) (facc : List (String × Int)),
    (∀ v ∈ vps, v.dtypeKind = .f ∨ v.dtypeKind = .i) →
    (∀ v ∈ vps, ∀ p ∈ facc, p.1 ≠ v.name) →
    (vps.map (fun v => v.name)).Nodup →
    createAxParametersGo vps acc facc =
      .ok (acc ++ vps.map (fun v => mkRangeSpec v (specValueType v.dtypeKind)),
           facc ++ (vps.filter (fun v => v.is_fixed)).map
             (fun v => (v.name, v.default_value))) := by
  induction vps with
  | nil => intro acc facc _ _ _; simp [createAxParametersGo]
  | cons var rest ih =>
    intro acc facc hkind hdisj hnodup
    have hvar : var.dtypeKind = .f ∨ var.dtypeKind = .i := hkind var (by simp)
    rw [createAxParametersGo, if_pos hvar]
    simp only [List.map_cons, List.nodup_cons] at hnodup
    by_cases hf : var.is_fixed
    · rw [if_pos hf]
      rw [dictInsert_of_not_mem facc var.name var.default_value
        (fun p hp => hdisj var (by simp) p hp)]
      rw [ih _ _ (fun v hv => hkind v (by simp [hv]))
        (by
          intro v hv p hp
          rcases List.mem_append.mp hp with hp | hp
          · exact hdisj v (by simp [hv]) p hp
          · simp only [List.mem_singleton] at hp
            subst hp
            intro hcontra
            apply hnodup.1
            have hnm : var.name = v.name := hcontra
            rw [hnm]
            exact List.mem_map_of_mem _ hv)
        hnodup.2]
      simp [hf]
    · rw [if_neg hf]
      rw [ih _ _ (fun v hv => hkind v (by simp [hv]))
        (fun v hv p hp => hdisj v (by simp [hv]) p hp) hnodup.2]
      simp [hf]

/-- Translation aborts with the fixed message at the first parameter of
a non-float, non-int dtype. -/
theorem createAxParametersGo_error (good : List VaryingParameter)
    (bad : VaryingParameter) (rest : List VaryingParameter) :
    ∀ (acc : List AxRangeParameter) (facc : List (String × Int)),
    (∀ v ∈ good, v.dtypeKind = .f ∨ v.dtypeKind = .i) →
    ¬(bad.dtypeKind = .f ∨ bad.dtypeKind = .i) →
    createAxParametersGo (good ++ bad :: rest) acc facc = .error axDtypeErrorMsg := by
  induction good with
  | nil =>
    intro acc facc _ hb
    simp only [List.nil_append]
    rw [createAxParametersGo, if_neg hb]
  | cons var grest ih =>
    intro acc facc hkind hb
    have hvar : var.dtypeKind = .f ∨ var.dtypeKind = .i := hkind var (by simp)
    rw [List.cons_append, createAxParametersGo, if_pos hvar]
    exact ih _ _ (fun v hv => hkind v (by simp [hv])) hb

/-! ## C7 -/

/-- C7 (amended): for varying parameters with distinct names whose dtypes are all
floating-point or integral, `_create_ax_parameters` emits exactly one bounded
range spec per parameter — bounds `(lower_bound, upper_bound)`, the declared
fidelity attributes, value type `float`/`int` per the dtype — and collects every
parameter flagged fixed, with its default value, into the fixed-feature overlay;
a parameter of any other dtype makes the translation fail with a `ValueError`
carrying a fixed message (which names neither the parameter nor its dtype). -/
theorem search_space_translation (vps : List VaryingParameter) :
    ((∀ v ∈ vps, v.dtypeKind = .f ∨ v.dtypeKind = .i) →
      (vps.map (fun v => v.name)).Nodup →
      createAxParameters vps =
        .ok (vps.map (fun v =>
               { name := v.name, type := "range",
                 bounds := (v.lower_bound, v.upper_bound),
                 is_fidelity := v.is_fidelity,
                 target_value := v.fidelity_target_value,
                 value_type := if v.dtypeKind = .f then "float" else "int" }),
             (vps.filter (fun v => v.is_fixed)).map
               (fun v => (v.name, v.default_value)))) ∧
    (∀ good bad rest, vps = good ++ bad :: rest →
      (∀ v ∈ good, v.dtypeKind = .f ∨ v.dtypeKind = .i) →
      ¬(bad.dtypeKind = .f ∨ bad.dtypeKind = .i) →
      createAxParameters vps = .error axDtypeErrorMsg) := by
  constructor
  · intro hkind hnodup
    have hmap : vps.map (fun v => mkRangeSpec v (specValueType v.dtypeKind)) =
        vps.map (fun v =>
          ({ name := v.name, type := "range",
             bounds := (v.lower_bound, v.upper_bound),
             is_fidelity := v.is_fidelity,
             target_value := v.fidelity_target_value,
             value_type := if v.dtypeKind = .f then "float" else "int" } :
            AxRangeParameter)) := by
      apply List.map_congr_left
      intro v hv
      rcases hkind v hv with h | h <;> simp [mkRangeSpec, specValueType, h]
    rw [createAxParameters,
      createAxParametersGo_ok vps [] [] hkind (by simp) hnodup, hmap]
    simp
  · intro good bad rest heq hgood hbad
    rw [heq, createAxParameters]
    exact createAxParametersGo_error good bad rest [] [] hgood hbad

/-- C7 witness: a float parameter plus a fixed int parameter translate to two
range specs with the int one in the overlay; adding a bool parameter fails. -/
theorem search_space_translation_witness :
    createAxParameters [pFloat, pIntFixed] =
      .ok ([{ name := "x0", type := "range", bounds := (0, 10), is_fidelity := false,
              target_value := 0, value_type := "float" },
            { name := "steps", type := "range", bounds := (1, 100), is_fidelity := false,
              target_value := 0, value_type := "int" }],
           [("steps", 50)]) ∧
    createAxParameters [pFloat, pBool] = .error axDtypeErrorMsg := by
  constructor
  · have h := (search_space_translation [pFloat, pIntFixed]).1
      (by decide) (by decide)
    rw [h]
    rfl
  · exact (search_space_translation [pFloat, pBool]).2 [pFloat] pBool [] rfl
      (by decide) (by decide)

set_option maxRecDepth 10000 in
/-- C7 counterexample: the `ValueError` raised for the non-translatable
parameter `beam_charge` does not name the offending parameter — the message is
a fixed literal (the interpolation placeholder is part of the text), so the
claim that the error names the offending parameter fails. -/
theorem search_space_error_is_generic :
    createAxParameters [pBool] = .error axDtypeErrorMsg ∧
    ¬ "beam_charge".toList <:+: axDtypeErrorMsg.toList ∧
    ¬ "bool".toList <:+: axDtypeErrorMsg.toList := by
  refine ⟨by decide, by decide, by decide⟩


/-- Whether an engine call is an `attach_trial` call. -/
def isAttachCall : EngineCall → Bool
  | .attachTrial _ => true
  | _ => false

/-- `complete_trial` leaves the generation strategy untouched. -/
theorem complete_trial_generation_strategy (c : AxClient) (i : Nat)
    (raw : List (String × (Int × Int))) (c2 : AxClient)
    (h : complete_trial c i raw = .ok c2) :
    c2.generation_strategy = c.generation_strategy := by
  unfold complete_trial at h
  cases hg : c.trials.get? i <;> rw [hg] at h
  · cases h
  · cases h
    rfl

/-- `mark_trial` leaves the generation strategy untouched. -/
theorem mark_trial_generation_strategy (c : AxClient) (i : Nat) (s : AxTrialStatus) :
    (mark_trial c i s).generation_strategy = c.generation_strategy := by
  unfold mark_trial
  cases hg : c.trials.get? i <;> simp

/-- The `finally` block leaves the generation strategy untouched and only
appends non-attach engine calls to the trace. -/
theorem tellFinally_frame (cfg : GenConfig) (r : ResolveOutcome) (trial : Trial) :
    (tellFinally cfg r trial).1.generation_strategy = r.client.generation_strategy ∧
    ∃ extra, (tellFinally cfg r trial).2.1 = r.calls ++ extra ∧
      ∀ call ∈ extra, isAttachCall call = false := by
  cases hs : trial.status with
  | completed =>
    cases htid : r.trial_id with
    | none =>
      refine ⟨?_, [], ?_, by simp⟩ <;>
        simp [tellFinally, Trial.completed, hs, htid]
    | some tid =>
      cases hcomp : complete_trial r.client tid (buildOutcomeEvals r.client trial) with
      | ok c2 =>
        refine ⟨?_, [.completeTrial tid (buildOutcomeEvals r.client trial)], ?_, ?_⟩
        · simp only [tellFinally, Trial.completed, hs, htid, hcomp, decide_True,
            if_pos]
          exact complete_trial_generation_strategy _ _ _ _ hcomp
        · simp [tellFinally, Trial.completed, hs, htid, hcomp]
        · intro call hcall
          simp only [List.mem_singleton] at hcall
          subst hcall
          rfl
      | error e =>
        refine ⟨?_, [.completeTrial tid (buildOutcomeEvals r.client trial)], ?_, ?_⟩
        · simp [tellFinally, Trial.completed, hs, htid, hcomp]
        · simp [tellFinally, Trial.completed, hs, htid, hcomp]
        · intro call hcall
          simp only [List.mem_singleton] at hcall
          subst hcall
          rfl
  | failed =>
    cases ha : r.ax_trial with
    | none =>
      refine ⟨?_, [], ?_, by simp⟩ <;>
        simp [tellFinally, Trial.completed, Trial.failed, hs, ha]
    | some idx =>
      by_cases hab : cfg.abandon_failed_trials
      · refine ⟨?_, [.markAbandoned idx], ?_, ?_⟩
        · simp only [tellFinally, Trial.completed, Trial.failed, hs, ha, hab,
            decide_True, decide_False, Bool.false_eq_true, if_neg, if_pos,
            not_false_iff]
          exact mark_trial_generation_strategy _ _ _
        · simp [tellFinally, Trial.completed, Trial.failed, hs, ha, hab]
        · intro call hcall
          simp only [List.mem_singleton] at hcall
          subst hcall
          rfl
      · refine ⟨?_, [.markFailed idx], ?_, ?_⟩
        · simp only [tellFinally, Trial.completed, Trial.failed, hs, ha,
            Bool.not_eq_true] at *
          simp only [hab, decide_True, decide_False, Bool.false_eq_true, if_neg,
            if_pos, not_false_iff]
          exact mark_trial_generation_strategy _ _ _
        · simp [tellFinally, Trial.completed, Trial.failed, hs, ha, hab]
        · intro call hcall
          simp only [List.mem_singleton] at hcall
          subst hcall
          rfl
  | candidate =>
    refine ⟨?_, [], ?_, by simp⟩ <;>
      simp [tellFinally, Trial.completed, Trial.failed, hs]


/-- Resolution for an externally-attached trial (no engine trial id) on
an engine whose attach succeeds, when the trial is not failed and the
initialization budget is not enforced: attach, fetch, adjust budget. -/
theorem tellResolve_attach_adjust (cfg : GenConfig) (c : AxClient) (trial : Trial)
    (hid : trial.ax_trial_id = none) (hok : c.attach_ok = true)
    (hst : trial.status ≠ .failed) (hen : cfg.enforce_n_init = false) :
    tellResolve cfg c trial =
      ⟨{ c with
         trials := c.trials ++ [⟨.pending, buildParams trial, []⟩],
         generation_strategy := reduceInitBudget cfg.modern_ax c.generation_strategy },
       [.attachTrial (buildParams trial), .getTrial c.trials.length],
       some c.trials.length, some c.trials.length, none⟩ := by
  unfold tellResolve attach_trial get_trial
  rw [hid]
  simp [hok, hen, hst, List.get?_eq_getElem?]

/-- Resolution for an externally-attached trial when the budget guard is
off (failed trial or `enforce_n_init`): attach and fetch only. -/
theorem tellResolve_attach_noop (cfg : GenConfig) (c : AxClient) (trial : Trial)
    (hid : trial.ax_trial_id = none) (hok : c.attach_ok = true)
    (h : trial.status = .failed ∨ cfg.enforce_n_init = true) :
    tellResolve cfg c trial =
      ⟨{ c with
         trials := c.trials ++ [⟨.pending, buildParams trial, []⟩] },
       [.attachTrial (buildParams trial), .getTrial c.trials.length],
       some c.trials.length, some c.trials.length, none⟩ := by
  have hcond : ¬(trial.status ≠ .failed ∧ ¬cfg.enforce_n_init = true) := by
    rcases h with h | h <;> simp [h]
  unfold tellResolve attach_trial get_trial
  rw [hid]
  simp only [hok, if_true, eq_self_iff_true, List.get?_eq_getElem?,
    List.getElem?_concat_length]
  rw [if_neg hcond]

/-- Resolution for an ask-originated trial never touches the engine
state and never calls `attach_trial`. -/
theorem tellResolve_with_id (cfg : GenConfig) (c : AxClient) (trial : Trial)
    (tid : Nat) (hid : trial.ax_trial_id = some tid) :
    (tellResolve cfg c trial).client = c ∧
    (tellResolve cfg c trial).calls = [.getTrial tid] := by
  unfold tellResolve
  rw [hid]
  cases h : get_trial c tid <;> simp [h]

/-- `maybeMoveToNextStep` never edits the steps and advances exactly
when the current step's threshold is reached and a next step exists. -/
theorem maybeMoveToNextStep_facts (gs : GenerationStrategy) (cs : GenerationStep)
    (h : gs.steps.get? gs.currIndex = some cs) :
    (maybeMoveToNextStep gs).steps = gs.steps ∧
    (maybeMoveToNextStep gs).currIndex =
      (if cs.threshold ≤ (gs.trialsInCurrStep : Int) ∧
          gs.currIndex + 1 < gs.steps.length
       then gs.currIndex + 1 else gs.currIndex) := by
  unfold maybeMoveToNextStep
  rw [h]
  dsimp only
  by_cases hc : cs.threshold ≤ (gs.trialsInCurrStep : Int) ∧
      gs.currIndex + 1 < gs.steps.length
  · simp [hc]
  · simp [hc]

/-- On the modern Ax branch, the budget adjustment on a current Sobol
step decrements `num_trials` and the transition threshold by one in the
step table and advances the plan exactly when the decremented threshold
is already reached. -/
theorem reduceInitBudget_sobol (gs : GenerationStrategy) (cs : GenerationStep)
    (h : gs.steps.get? gs.currIndex = some cs) (hm : cs.model = .SOBOL) :
    (reduceInitBudget true gs).steps.get? gs.currIndex =
      some { cs with num_trials := cs.num_trials - 1, threshold := cs.threshold - 1 } ∧
    (reduceInitBudget true gs).currIndex =
      (if cs.threshold - 1 ≤ (gs.trialsInCurrStep : Int) ∧
          gs.currIndex + 1 < gs.steps.length
       then gs.currIndex + 1 else gs.currIndex) := by
  have hlt : gs.currIndex < gs.steps.length := (List.get?_eq_some.mp h).choose
  have hset : (gs.steps.set gs.currIndex
      { cs with num_trials := cs.num_trials - 1, threshold := cs.threshold - 1 }).get?
        gs.currIndex =
      some { cs with num_trials := cs.num_trials - 1, threshold := cs.threshold - 1 } := by
    simp [List.get?_eq_getElem?, List.getElem?_set_self', List.getElem?_eq_getElem hlt]
  unfold reduceInitBudget maybeMoveToNextStep
  rw [h]
  dsimp only
  simp only [if_pos hm, eq_self_iff_true, if_true, List.length_set]
  rw [hset]
  dsimp only
  by_cases hc : cs.threshold - 1 ≤ (gs.trialsInCurrStep : Int) ∧
      gs.currIndex + 1 < gs.steps.length
  · simp only [if_pos hc]
    exact ⟨hset, trivial⟩
  · simp only [if_neg hc]
    exact ⟨hset, trivial⟩

/-- A non-Sobol (or absent) current step makes the budget adjustment a
no-op. -/
theorem reduceInitBudget_noop (m : Bool) (gs : GenerationStrategy)
    (h : ∀ cs, gs.steps.get? gs.currIndex = some cs → cs.model ≠ .SOBOL) :
    reduceInitBudget m gs = gs := by
  unfold reduceInitBudget
  cases hg : gs.steps.get? gs.currIndex with
  | none => rfl
  | some cs => simp [h cs hg]


/-- C1: in `_tell`, attaching an externally-supplied trial (no engine trial id)
whose status is not failed, when `enforce_n_init` is off and the engine's
current generation step is the quasi-random (Sobol) step, decrements that
step's trial-count target and its transition threshold by exactly 1 and then
advances the generation plan exactly when the step is exhausted; with
`enforce_n_init` on, or when the current step is not the Sobol step, the
generation strategy is left unchanged; the adjustment accompanies exactly one
attach call per attach event, and an ask-originated trial (one carrying an
engine trial id) never triggers it. -/
theorem attach_init_budget_adjustment (cfg : GenConfig) (c : AxClient) (trial : Trial)
    (hmodern : cfg.modern_ax = true) :
    (trial.ax_trial_id = none → c.attach_ok = true → trial.status ≠ .failed →
      cfg.enforce_n_init = false →
      ∀ cs, c.generation_strategy.currentStep = some cs → cs.model = .SOBOL →
      (tellOne cfg c trial).1.generation_strategy.steps.get?
          c.generation_strategy.currIndex =
        some { cs with num_trials := cs.num_trials - 1,
                       threshold := cs.threshold - 1 } ∧
      (tellOne cfg c trial).1.generation_strategy.currIndex =
        (if cs.threshold - 1 ≤ (c.generation_strategy.trialsInCurrStep : Int) ∧
            c.generation_strategy.currIndex + 1 < c.generation_strategy.steps.length
         then c.generation_strategy.currIndex + 1
         else c.generation_strategy.currIndex) ∧
      (tellOne cfg c trial).2.1.countP isAttachCall = 1) ∧
    (trial.ax_trial_id = none → c.attach_ok = true →
      (cfg.enforce_n_init = true ∨
        ∀ cs, c.generation_strategy.currentStep = some cs → cs.model ≠ .SOBOL) →
      (tellOne cfg c trial).1.generation_strategy = c.generation_strategy) ∧
    (∀ tid, trial.ax_trial_id = some tid →
      (tellOne cfg c trial).1.generation_strategy = c.generation_strategy ∧
      (tellOne cfg c trial).2.1.countP isAttachCall = 0) := by
  unfold tellOne
  refine ⟨?_, ?_, ?_⟩
  · intro hid hok hst hen cs hcs hsobol
    have hres := tellResolve_attach_adjust cfg c trial hid hok hst hen
    obtain ⟨hgs, extra, hcalls, hextra⟩ :=
      tellFinally_frame cfg (tellResolve cfg c trial) trial
    unfold GenerationStrategy.currentStep at hcs
    obtain ⟨hA, hB⟩ := reduceInitBudget_sobol c.generation_strategy cs hcs hsobol
    refine ⟨?_, ?_, ?_⟩
    · rw [hgs, hres]
      dsimp only
      rw [hmodern]
      exact hA
    · rw [hgs, hres]
      dsimp only
      rw [hmodern]
      exact hB
    · rw [hcalls, hres, List.countP_append]
      have h2 : extra.countP isAttachCall = 0 :=
        List.countP_eq_zero.mpr (fun a ha => by simp [hextra a ha])
      rw [h2]
      simp [List.countP_cons, isAttachCall]
  · intro hid hok hcond
    obtain ⟨hgs, extra, hcalls, hextra⟩ :=
      tellFinally_frame cfg (tellResolve cfg c trial) trial
    by_cases hng : trial.status = .failed ∨ cfg.enforce_n_init = true
    · have hres := tellResolve_attach_noop cfg c trial hid hok hng
      rw [hgs, hres]
    · push_neg at hng
      have hen : cfg.enforce_n_init = false := by
        cases he : cfg.enforce_n_init
        · rfl
        · exact absurd he hng.2
      have hnonsobol : ∀ cs, c.generation_strategy.currentStep = some cs →
          cs.model ≠ .SOBOL := by
        rcases hcond with hcond | hcond
        · exact absurd hcond hng.2
        · exact hcond
      have hres := tellResolve_attach_adjust cfg c trial hid hok hng.1 hen
      rw [hgs, hres]
      dsimp only
      rw [reduceInitBudget_noop cfg.modern_ax c.generation_strategy
        (fun cs h => hnonsobol cs h)]
  · intro tid hid
    obtain ⟨hgs, extra, hcalls, hextra⟩ :=
      tellFinally_frame cfg (tellResolve cfg c trial) trial
    have hres := tellResolve_with_id cfg c trial tid hid
    refine ⟨?_, ?_⟩
    · rw [hgs, hres.1]
    · rw [hcalls, hres.2, List.countP_append]
      have h2 : extra.countP isAttachCall = 0 :=
        List.countP_eq_zero.mpr (fun a ha => by simp [hextra a ha])
      rw [h2]
      simp [List.countP_cons, isAttachCall]

/-- A single-objective configuration with `enforce_n_init` on. -/
def cfgEnforce : GenConfig := ⟨[pFloat], [⟨"f", true⟩], true, true, true⟩

/-- C1 witness: attaching the completed external trial to a fresh engine in the
Sobol phase leaves a Sobol step with 3 trials and threshold 3; with
`enforce_n_init` the strategy is unchanged, and telling an ask-originated trial
never changes it. -/
theorem attach_init_budget_adjustment_witness :
    (tellOne cfg1 clientInit trialAttach).1.generation_strategy.steps.get?
        clientInit.generation_strategy.currIndex =
      some { sobolStep with num_trials := sobolStep.num_trials - 1,
                            threshold := sobolStep.threshold - 1 } ∧
    (tellOne cfgEnforce clientInit trialAttach).1.generation_strategy =
      clientInit.generation_strategy ∧
    (tellOne cfg1 clientInit trialStale).1.generation_strategy =
      clientInit.generation_strategy := by
  refine ⟨?_, ?_, ?_⟩
  · exact ((attach_init_budget_adjustment cfg1 clientInit trialAttach rfl).1
      rfl rfl (by decide) rfl sobolStep rfl rfl).1
  · exact (attach_init_budget_adjustment cfgEnforce clientInit trialAttach rfl).2.1
      rfl rfl (Or.inl rfl)
  · exact ((attach_init_budget_adjustment cfg1 clientInit trialStale rfl).2.2 0 rfl).1


/-- Folding dict insertions of evaluations with fresh, distinct names is
an append of the name-keyed pairs. -/
theorem foldl_dictInsert_evals (evs : List Evaluation) :
    ∀ d : List (String × (Int × Int)),
    (∀ ev ∈ evs, ∀ p ∈ d, p.1 ≠ ev.name) →
    (evs.map (fun ev => ev.name)).Nodup →
    evs.foldl (fun d ev => dictInsert d ev.name (ev.value, ev.sem)) d =
      d ++ evs.map (fun ev => (ev.name, (ev.value, ev.sem))) := by
  induction evs with
  | nil => intro d _ _; simp
  | cons ev rest ih =>
    intro d hdisj hnodup
    simp only [List.map_cons, List.nodup_cons] at hnodup
    rw [List.foldl_cons,
      dictInsert_of_not_mem d ev.name (ev.value, ev.sem)
        (fun p hp => hdisj ev (by simp) p hp),
      ih (d ++ [(ev.name, (ev.value, ev.sem))])
        (by
          intro e he p hp
          rcases List.mem_append.mp hp with hp | hp
          · exact hdisj e (by simp [he]) p hp
          · simp only [List.mem_singleton] at hp
            subst hp
            intro hcontra
            apply hnodup.1
            have hnm : ev.name = e.name := hcontra
            rw [hnm]
            exact List.mem_map_of_mem _ he)
        hnodup.2]
    simp

/-- Folding conditional dict insertions (keep only names among `ocs`) of
evaluations with fresh, distinct names appends the filtered pairs. -/
theorem foldl_dictInsert_filter (ocs : List String) (evs : List Evaluation) :
    ∀ d : List (String × (Int × Int)),
    (∀ ev ∈ evs, ∀ p ∈ d, p.1 ≠ ev.name) →
    (evs.map (fun ev => ev.name)).Nodup →
    evs.foldl
      (fun d ev => if ev.name ∈ ocs then dictInsert d ev.name (ev.value, ev.sem) else d)
      d =
      d ++ (evs.filter (fun ev => ev.name ∈ ocs)).map
        (fun ev => (ev.name, (ev.value, ev.sem))) := by
  induction evs with
  | nil => intro d _ _; simp
  | cons ev rest ih =>
    intro d hdisj hnodup
    simp only [List.map_cons, List.nodup_cons] at hnodup
    rw [List.foldl_cons]
    by_cases hin : ev.name ∈ ocs
    · rw [if_pos hin,
        dictInsert_of_not_mem d ev.name (ev.value, ev.sem)
          (fun p hp => hdisj ev (by simp) p hp),
        ih (d ++ [(ev.name, (ev.value, ev.sem))])
          (by
            intro e he p hp
            rcases List.mem_append.mp hp with hp | hp
            · exact hdisj e (by simp [he]) p hp
            · simp only [List.mem_singleton] at hp
              subst hp
              intro hcontra
              apply hnodup.1
              have hnm : ev.name = e.name := hcontra
              rw [hnm]
              exact List.mem_map_of_mem _ he)
          hnodup.2]
      rw [List.filter_cons_of_pos (by simpa using hin)]
      simp
    · rw [if_neg hin,
        ih d (fun e he p hp => hdisj e (by simp [he]) p hp) hnodup.2,
        List.filter_cons_of_neg (by simpa using hin)]

/-- The outcome map `_tell` submits for a completed trial, under distinct
evaluation names: the objective pairs followed by the parameter pairs whose
names are registered outcome-constraint metrics. -/
theorem buildOutcomeEvals_spec (c : AxClient) (trial : Trial)
    (hno : (trial.objective_evaluations.map (fun ev => ev.name)).Nodup)
    (hnp : (trial.parameter_evaluations.map (fun ev => ev.name)).Nodup)
    (hdisj : ∀ ev ∈ trial.parameter_evaluations,
      ∀ ev2 ∈ trial.objective_evaluations, ev.name ≠ ev2.name) :
    buildOutcomeEvals c trial =
      trial.objective_evaluations.map (fun ev => (ev.name, (ev.value, ev.sem))) ++
      (trial.parameter_evaluations.filter
        (fun ev => ev.name ∈ c.outcome_constraint_metrics)).map
        (fun ev => (ev.name, (ev.value, ev.sem))) := by
  unfold buildOutcomeEvals
  have hobj := foldl_dictInsert_evals trial.objective_evaluations []
    (by simp) hno
  simp only [List.nil_append] at hobj
  by_cases hocs : c.outcome_constraint_metrics = []
  · rw [if_neg (by simp [hocs])]
    rw [hobj]
    have : trial.parameter_evaluations.filter
        (fun ev => ev.name ∈ c.outcome_constraint_metrics) = [] := by
      rw [hocs]
      simp [List.filter_eq_nil_iff]
    rw [this]
    simp
  · rw [if_pos hocs, hobj]
    rw [foldl_dictInsert_filter c.outcome_constraint_metrics
      trial.parameter_evaluations
      (trial.objective_evaluations.map (fun ev => (ev.name, (ev.value, ev.sem))))
      (by
        intro ev hev p hp
        obtain ⟨e2, he2, rfl⟩ := List.mem_map.mp hp
        exact (hdisj ev hev e2 he2).symm)
      hnp]


/-- `tellOne` on a completed ask-originated trial with a known engine
trial: fetch and complete, no exception. -/
theorem tellOne_completed_valid (cfg : GenConfig) (c : AxClient) (trial : Trial)
    (tid : Nat) (et : AxTrial)
    (hid : trial.ax_trial_id = some tid) (hvalid : c.trials.get? tid = some et)
    (hcomp : trial.status = .completed) :
    tellOne cfg c trial =
      ({ c with
         trials := c.trials.set tid
           { et with status := .completed, raw_data := buildOutcomeEvals c trial } },
       [.getTrial tid, .completeTrial tid (buildOutcomeEvals c trial)],
       none) := by
  unfold tellOne tellResolve get_trial
  rw [hid]
  dsimp only
  rw [hvalid]
  dsimp only
  unfold tellFinally complete_trial
  simp only [Trial.completed, hcomp, decide_True, if_true, eq_self_iff_true]
  rw [hvalid]
  dsimp only
  rfl

/-- `tellOne` on a failed ask-originated trial with a known engine
trial: fetch and mark abandoned or failed per the policy, no exception. -/
theorem tellOne_failed_valid (cfg : GenConfig) (c : AxClient) (trial : Trial)
    (tid : Nat) (et : AxTrial)
    (hid : trial.ax_trial_id = some tid) (hvalid : c.trials.get? tid = some et)
    (hf : trial.status = .failed) :
    tellOne cfg c trial =
      ({ c with
         trials := c.trials.set tid
           { et with status := if cfg.abandon_failed_trials then .abandoned else .failed } },
       [.getTrial tid,
        if cfg.abandon_failed_trials then .markAbandoned tid else .markFailed tid],
       none) := by
  unfold tellOne tellResolve get_trial
  rw [hid]
  dsimp only
  rw [hvalid]
  dsimp only
  unfold tellFinally mark_trial
  simp only [Trial.completed, Trial.failed, hf, decide_True, decide_False,
    Bool.false_eq_true, if_false, if_true, eq_self_iff_true]
  by_cases hab : cfg.abandon_failed_trials
  · rw [hvalid]
    simp [hab]
  · rw [hvalid]
    simp [hab]


/-- C2: a completed trial with a resolvable engine counterpart transitions it
to `completed` with an outcome map holding exactly the (configured) objective
evaluations' `(value, sem)` pairs plus the analyzed-parameter evaluations whose
names are registered outcome-constraint metrics; a failed trial transitions it
to `abandoned` when `abandon_failed_trials` is set and to `failed` otherwise;
in both cases the engine trial does not stay `pending`. -/
theorem tell_terminal_transition (cfg : GenConfig) (c : AxClient) (trial : Trial)
    (tid : Nat) (et : AxTrial)
    (hid : trial.ax_trial_id = some tid) (hvalid : c.trials.get? tid = some et)
    (hno : (trial.objective_evaluations.map (fun ev => ev.name)).Nodup)
    (hnp : (trial.parameter_evaluations.map (fun ev => ev.name)).Nodup)
    (hdisj : ∀ ev ∈ trial.parameter_evaluations,
      ∀ ev2 ∈ trial.objective_evaluations, ev.name ≠ ev2.name)
    (hobj : trial.objective_evaluations.map (fun ev => ev.name) =
      cfg.objectives.map (fun o => o.name)) :
    (trial.status = .completed →
      (tellOne cfg c trial).2.2 = none ∧
      (tellOne cfg c trial).1.trials.get? tid = some
        { et with
          status := .completed,
          raw_data :=
            trial.objective_evaluations.map
              (fun ev => (ev.name, (ev.value, ev.sem))) ++
            (trial.parameter_evaluations.filter
              (fun ev => ev.name ∈ c.outcome_constraint_metrics)).map
              (fun ev => (ev.name, (ev.value, ev.sem))) }) ∧
    (trial.status = .failed →
      (tellOne cfg c trial).2.2 = none ∧
      (tellOne cfg c trial).1.trials.get? tid = some
        { et with
          status := if cfg.abandon_failed_trials then .abandoned else .failed }) ∧
    (trial.status = .completed ∨ trial.status = .failed →
      ∀ et2, (tellOne cfg c trial).1.trials.get? tid = some et2 →
        et2.status ≠ .pending) := by
  have hlt : tid < c.trials.length := (List.get?_eq_some.mp hvalid).choose
  have hsetget : ∀ x : AxTrial, (c.trials.set tid x).get? tid = some x := by
    intro x
    simp [List.get?_eq_getElem?, List.getElem?_set_self', List.getElem?_eq_getElem hlt]
  refine ⟨?_, ?_, ?_⟩
  · intro hcomp
    rw [tellOne_completed_valid cfg c trial tid et hid hvalid hcomp]
    refine ⟨rfl, ?_⟩
    dsimp only
    rw [hsetget, buildOutcomeEvals_spec c trial hno hnp hdisj]
  · intro hf
    rw [tellOne_failed_valid cfg c trial tid et hid hvalid hf]
    exact ⟨rfl, hsetget _⟩
  · rintro (hcomp | hf) et2 h2
    · rw [tellOne_completed_valid cfg c trial tid et hid hvalid hcomp] at h2
      dsimp only at h2
      rw [hsetget] at h2
      cases h2
      simp
    · rw [tellOne_failed_valid cfg c trial tid et hid hvalid hf] at h2
      dsimp only at h2
      rw [hsetget] at h2
      cases h2
      by_cases hab : cfg.abandon_failed_trials <;> simp [hab]

/-- An engine holding one pending trial (index 0) and one registered
outcome-constraint metric `m1`. -/
def clientWithTrial : AxClient :=
  ⟨[⟨.pending, [("x0", some 3)], []⟩], gsInit, ["m1"], true, true, [], none, []⟩

/-- A completed ask-originated trial, with one objective evaluation and
two analyzed-parameter evaluations of which only `m1` is constrained. -/
def trialDone : Trial :=
  ⟨[pFloat], [some 3], .completed, some 0, [⟨"f", 5, 0⟩], [⟨"m1", 7, 1⟩, ⟨"m2", 9, 1⟩]⟩

/-- The failed variant of `trialDone`. -/
def trialBad : Trial := { trialDone with status := .failed }

/-- C2 witness: telling the completed trial completes engine trial 0 with the
pairs for `f` and `m1` (but not `m2`); telling the failed one abandons it. -/
theorem tell_terminal_transition_witness :
    ((tellOne cfg1 clientWithTrial trialDone).2.2 = none ∧
     (tellOne cfg1 clientWithTrial trialDone).1.trials.get? 0 = some
       ⟨.completed, [("x0", some 3)], [("f", (5, 0)), ("m1", (7, 1))]⟩) ∧
    (tellOne cfg1 clientWithTrial trialBad).1.trials.get? 0 = some
       ⟨.abandoned, [("x0", some 3)], []⟩ := by
  refine ⟨?_, ?_⟩
  · have h := (tell_terminal_transition cfg1 clientWithTrial trialDone 0
      ⟨.pending, [("x0", some 3)], []⟩ rfl rfl (by decide) (by decide)
      (by decide) (by decide)).1 rfl
    exact ⟨h.1, h.2⟩
  · have h := (tell_terminal_transition cfg1 clientWithTrial trialBad 0
      ⟨.pending, [("x0", some 3)], []⟩ rfl rfl (by decide) (by decide)
      (by decide) (by decide)).2.1 rfl
    exact h.2


/-- When the resolution bound both locals and the resolved index is
known to the engine, the `finally` block raises nothing new and the
pending exception (if any) propagates unchanged. -/
theorem tellFinally_no_new_exc (cfg : GenConfig) (r : ResolveOutcome) (trial : Trial)
    (tid : Nat) (et : AxTrial)
    (h1 : r.trial_id = some tid) (h2 : r.ax_trial = some tid)
    (h3 : r.client.trials.get? tid = some et) :
    (tellFinally cfg r trial).2.2 = r.exc := by
  unfold tellFinally complete_trial mark_trial
  cases hs : trial.status
  · simp [Trial.completed, Trial.failed, hs]
  · rw [h1]
    simp only [Trial.completed, hs, decide_True, if_true, eq_self_iff_true]
    rw [h3]
  · rw [h2]
    simp only [Trial.completed, Trial.failed, hs, decide_True, decide_False,
      Bool.false_eq_true, if_false, if_true, eq_self_iff_true]
    by_cases hab : cfg.abandon_failed_trials <;> simp [hab]

/-- `tellOne` on a completed trial whose engine trial id the engine does
not know: the fetch raises `KeyError`, which is not caught; the `finally`
block still attempts `complete_trial` with that id (which fails on the
same unknown index) and the `KeyError` propagates. -/
theorem tellOne_completed_stale (cfg : GenConfig) (c : AxClient) (trial : Trial)
    (tid : Nat) (hid : trial.ax_trial_id = some tid)
    (hmiss : c.trials.get? tid = none) (hcomp : trial.status = .completed) :
    tellOne cfg c trial =
      (c, [.getTrial tid, .completeTrial tid (buildOutcomeEvals c trial)],
       some .keyError) := by
  unfold tellOne tellResolve get_trial
  rw [hid]
  dsimp only
  rw [hmiss]
  dsimp only
  unfold tellFinally complete_trial
  simp only [Trial.completed, hcomp, decide_True, if_true, eq_self_iff_true]
  rw [hmiss]
  rfl

/-- C3 (amended): only the missing-id resolution failure (`AttributeError`) is
recovered by the attach-then-fetch fallback — with a working attach the tell
iteration finishes without exception and performs exactly one attach; when the
trial carries an engine trial id the engine's fetch does not know, nothing is
caught: the completion marking is still attempted with that id inside `finally`
(for completed trials), but the `KeyError` escapes and no attach happens; a
failure of the attach itself is fatal as well. -/
theorem tell_resolution_error_policy (cfg : GenConfig) (c : AxClient) (trial : Trial) :
    (trial.ax_trial_id = none → c.attach_ok = true →
      (tellOne cfg c trial).2.2 = none ∧
      (tellOne cfg c trial).2.1.countP isAttachCall = 1) ∧
    (∀ tid, trial.ax_trial_id = some tid → c.trials.get? tid = none →
      trial.status = .completed →
      (tellOne cfg c trial).2.2 = some .keyError ∧
      .completeTrial tid (buildOutcomeEvals c trial) ∈ (tellOne cfg c trial).2.1 ∧
      (tellOne cfg c trial).2.1.countP isAttachCall = 0) ∧
    (trial.ax_trial_id = none → c.attach_ok = false →
      (tellOne cfg c trial).2.2 ≠ none) := by
  refine ⟨?_, ?_, ?_⟩
  · intro hid hok
    obtain ⟨hgs, extra, hcalls, hextra⟩ :=
      tellFinally_frame cfg (tellResolve cfg c trial) trial
    have hcount : (tellOne cfg c trial).2.1.countP isAttachCall =
        (tellResolve cfg c trial).calls.countP isAttachCall := by
      unfold tellOne
      rw [hcalls, List.countP_append]
      have hz : extra.countP isAttachCall = 0 :=
        List.countP_eq_zero.mpr (fun a ha => by simp [hextra a ha])
      rw [hz, Nat.add_zero]
    by_cases hng : trial.status = .failed ∨ cfg.enforce_n_init = true
    · have hres := tellResolve_attach_noop cfg c trial hid hok hng
      constructor
      · show (tellFinally cfg (tellResolve cfg c trial) trial).2.2 = none
        rw [tellFinally_no_new_exc cfg (tellResolve cfg c trial) trial
          c.trials.length ⟨.pending, buildParams trial, []⟩
          (by rw [hres]) (by rw [hres])
          (by rw [hres]; simp [List.get?_eq_getElem?]), hres]
      · rw [hcount, hres]
        simp [List.countP_cons, isAttachCall]
    · push_neg at hng
      have hen : cfg.enforce_n_init = false := by
        cases he : cfg.enforce_n_init
        · rfl
        · exact absurd he hng.2
      have hres := tellResolve_attach_adjust cfg c trial hid hok hng.1 hen
      constructor
      · show (tellFinally cfg (tellResolve cfg c trial) trial).2.2 = none
        rw [tellFinally_no_new_exc cfg (tellResolve cfg c trial) trial
          c.trials.length ⟨.pending, buildParams trial, []⟩
          (by rw [hres]) (by rw [hres])
          (by rw [hres]; simp [List.get?_eq_getElem?]), hres]
      · rw [hcount, hres]
        simp [List.countP_cons, isAttachCall]
  · intro tid hid hmiss hcomp
    have h := tellOne_completed_stale cfg c trial tid hid hmiss hcomp
    rw [h]
    exact ⟨rfl, by simp, by simp [List.countP_cons, isAttachCall]⟩
  · intro hid hfail
    have hres : tellResolve cfg c trial =
        ⟨c, [.attachTrial (buildParams trial)], none, none, some .engineError⟩ := by
      unfold tellResolve attach_trial
      rw [hid]
      simp [hfail]
    show (tellFinally cfg (tellResolve cfg c trial) trial).2.2 ≠ none
    rw [hres]
    unfold tellFinally
    cases hs : trial.status <;>
      simp [Trial.completed, Trial.failed, hs]

/-- C3 counterexample: for the concrete completed trial carrying engine trial
id 0 on an engine that does not know trial 0, the lookup failure is not
recovered by the attach-then-fetch fallback — no attach call happens and the
`KeyError` escapes `_tell` (the completion call is attempted and fails too). -/
theorem tell_lookup_failure_not_recovered :
    (tellOne cfg1 clientInit trialStale).2.2 = some .keyError ∧
    (tellOne cfg1 clientInit trialStale).2.1.countP isAttachCall = 0 ∧
    (tellOne cfg1 clientInit trialStale).2.1 =
      [.getTrial 0, .completeTrial 0 [("f", (5, 0))]] := by
  refine ⟨by decide, by decide, by decide⟩

/-- C3 witness: a fresh attach completes cleanly with one attach call; the
stale-id completed trial ends with the escaped `KeyError`, an attempted
completion call and no attach; a failing attach is fatal. -/
theorem tell_resolution_error_policy_witness :
    ((tellOne cfg1 clientInit trialAttach).2.2 = none ∧
     (tellOne cfg1 clientInit trialAttach).2.1.countP isAttachCall = 1) ∧
    (.completeTrial 0 (buildOutcomeEvals clientInit trialStale) ∈
      (tellOne cfg1 clientInit trialStale).2.1) ∧
    (tellOne cfg1 clientNoAttach trialAttach).2.2 ≠ none := by
  refine ⟨?_, ?_, ?_⟩
  · exact (tell_resolution_error_policy cfg1 clientInit trialAttach).1 rfl rfl
  · exact ((tell_resolution_error_policy cfg1 clientInit trialStale).2.1 0
      rfl rfl rfl).2.1
  · exact (tell_resolution_error_policy cfg1 clientNoAttach trialAttach).2.2 rfl rfl


/-- One ask iteration on an engine with a pending point: regardless of
fixed-feature support (the `TypeError` fallback hides the difference),
the trial receives the per-name values in declaration order and the new
engine trial index. -/
theorem askOne_spec (vps : List VaryingParameter) (c : AxClient) (t : Trial)
    (pt : List (String × Int)) (rest : List (List (String × Int)))
    (hpt : c.next_points = pt :: rest) :
    askOne vps c t = .ok
      ({ c with
         trials := c.trials ++ [⟨.pending, pt.map (fun q => (q.1, some q.2)), []⟩],
         next_points := rest,
         generation_strategy := maybeMoveToNextStep
           { c.generation_strategy with
             trialsInCurrStep := c.generation_strategy.trialsInCurrStep + 1 } },
       { t with
         parameter_values := vps.map (fun var => dictGet pt var.name),
         ax_trial_id := some c.trials.length }) := by
  by_cases hsup : c.supports_fixed_features <;>
    simp [askOne, get_next_trial, hpt, hsup]

/-- One ask iteration on an engine with no pending point fails with the
engine-side error (not a `TypeError`). -/
theorem askOne_exhausted (vps : List VaryingParameter) (c : AxClient) (t : Trial)
    (hpt : c.next_points = []) :
    askOne vps c t = .error .engineError := by
  by_cases hsup : c.supports_fixed_features <;>
    simp [askOne, get_next_trial, hpt, hsup]

/-- The already-processed prefix passes through `askLoop` untouched. -/
theorem askLoop_append (vps : List VaryingParameter) (ts : List Trial) :
    ∀ (c : AxClient) (done : List Trial),
    askLoop vps c done ts =
      ((askLoop vps c [] ts).1, done ++ (askLoop vps c [] ts).2.1,
       (askLoop vps c [] ts).2.2) := by
  induction ts with
  | nil => intro c done; simp [askLoop]
  | cons t ts ih =>
    intro c done
    unfold askLoop
    cases h : askOne vps c t with
    | error e => simp
    | ok r =>
      obtain ⟨c1, t1⟩ := r
      dsimp only
      rw [ih c1 (done ++ [t1]), ih c1 ([] ++ [t1])]
      simp


/-- `_ask` with enough pending engine points succeeds and fills every
trial: the k-th trial gets the k-th generated per-name map, read in
declaration order, and the k-th new engine trial index. -/
theorem askTrials_success (vps : List VaryingParameter) (ts : List Trial) :
    ∀ c : AxClient, ts.length ≤ c.next_points.length →
    (askTrials vps c ts).2.2 = none ∧
    (askTrials vps c ts).2.1.length = ts.length ∧
    (∀ k, (askTrials vps c ts).2.1.get? k =
      (ts.get? k).map (fun t =>
        { t with
          parameter_values := vps.map (fun var =>
            dictGet (c.next_points.getD k []) var.name),
          ax_trial_id := some (c.trials.length + k) })) := by
  induction ts with
  | nil =>
    intro c _
    refine ⟨rfl, rfl, ?_⟩
    intro k
    simp [askTrials, askLoop]
  | cons t ts ih =>
    intro c h
    cases hnp : c.next_points with
    | nil =>
      rw [hnp] at h
      simp at h
    | cons pt rest =>
      have hlen : ts.length ≤ rest.length := by
        rw [hnp] at h
        simpa using h
      obtain ⟨hexc, hlength, hget⟩ := ih
        { c with
          trials := c.trials ++ [⟨.pending, pt.map (fun q => (q.1, some q.2)), []⟩],
          next_points := rest,
          generation_strategy := maybeMoveToNextStep
            { c.generation_strategy with
              trialsInCurrStep := c.generation_strategy.trialsInCurrStep + 1 } }
        (by simpa using hlen)
      unfold askTrials at hexc hlength hget ⊢
      unfold askLoop
      rw [askOne_spec vps c t pt rest hnp]
      dsimp only
      rw [askLoop_append]
      refine ⟨hexc, by simp [hlength], ?_⟩
      intro k
      cases k with
      | zero => simp [hnp]
      | succ k =>
        simp only [List.nil_append, List.cons_append, List.get?_cons_succ]
        rw [hget k]
        cases hk : ts.get? k with
        | none => simp
        | some a =>
          simp only [Option.map_some, Option.some_inj]
          have harith : c.trials.length + 1 + k = c.trials.length + (k + 1) := by
            omega
          simp [hnp, harith]


/-- `_ask` with too few pending engine points aborts with the engine
error; the failing trial and all later ones keep their original fields. -/
theorem askTrials_fail (vps : List VaryingParameter) (ts : List Trial) :
    ∀ c : AxClient, c.next_points.length < ts.length →
    (askTrials vps c ts).2.2 = some .engineError ∧
    ∀ k, c.next_points.length ≤ k →
      (askTrials vps c ts).2.1.get? k = ts.get? k := by
  induction ts with
  | nil => intro c h; simp at h
  | cons t ts ih =>
    intro c h
    cases hnp : c.next_points with
    | nil =>
      unfold askTrials askLoop
      rw [askOne_exhausted vps c t hnp]
      dsimp only
      exact ⟨rfl, fun k _ => by simp⟩
    | cons pt rest =>
      have hlen : rest.length < ts.length := by
        rw [hnp] at h
        simpa using h
      obtain ⟨hexc, hget⟩ := ih
        { c with
          trials := c.trials ++ [⟨.pending, pt.map (fun q => (q.1, some q.2)), []⟩],
          next_points := rest,
          generation_strategy := maybeMoveToNextStep
            { c.generation_strategy with
              trialsInCurrStep := c.generation_strategy.trialsInCurrStep + 1 } }
        (by simpa using hlen)
      unfold askTrials at hexc hget ⊢
      unfold askLoop
      rw [askOne_spec vps c t pt rest hnp]
      dsimp only
      rw [askLoop_append]
      refine ⟨hexc, ?_⟩
      intro k hk
      cases k with
      | zero => simp at hk
      | succ k =>
        simp only [List.nil_append, List.cons_append, List.get?_cons_succ]
        exact hget k (by simpa using hk)

/-- C4: when the engine can serve every request, `_ask` returns with no
exception and each of the N trials carries a non-null engine trial id and a
parameter-value list with exactly one entry per declared varying parameter,
drawn from the engine's per-name map in declaration order; when the engine
fails, the whole call aborts with the error and the failing trial (and every
later one) is left without any assignment. -/
theorem ask_fill_guarantee (vps : List VaryingParameter) (ts : List Trial)
    (c : AxClient) :
    (ts.length ≤ c.next_points.length →
      (askTrials vps c ts).2.2 = none ∧
      (askTrials vps c ts).2.1.length = ts.length ∧
      ∀ k t', (askTrials vps c ts).2.1.get? k = some t' →
        t'.ax_trial_id = some (c.trials.length + k) ∧
        t'.parameter_values =
          vps.map (fun var => dictGet (c.next_points.getD k []) var.name) ∧
        t'.parameter_values.length = vps.length) ∧
    (c.next_points.length < ts.length →
      (askTrials vps c ts).2.2 ≠ none ∧
      ∀ k, c.next_points.length ≤ k →
        (askTrials vps c ts).2.1.get? k = ts.get? k) := by
  constructor
  · intro h
    obtain ⟨hexc, hlength, hget⟩ := askTrials_success vps ts c h
    refine ⟨hexc, hlength, ?_⟩
    intro k t' ht'
    rw [hget k] at ht'
    cases hk : ts.get? k with
    | none => rw [hk] at ht'; cases ht'
    | some a =>
      rw [hk] at ht'
      cases ht'
      refine ⟨rfl, rfl, ?_⟩
      simp
  · intro h
    obtain ⟨hexc, hget⟩ := askTrials_fail vps ts c h
    exact ⟨by rw [hexc]; simp, hget⟩

/-- An engine with two pending generated points. -/
def clientTwoPoints : AxClient :=
  ⟨[], gsInit, [], true, true, [[("x0", 3)], [("x0", 4)]], none, []⟩

/-- C4 witness: two trials against two points succeed; two trials against one
point abort with an error and leave the second trial untouched. -/
theorem ask_fill_guarantee_witness :
    (askTrials [pFloat] clientTwoPoints [trialEmpty, trialEmpty]).2.2 = none ∧
    (askTrials [pFloat] clientInit [trialEmpty, trialEmpty]).2.2 ≠ none ∧
    (askTrials [pFloat] clientInit [trialEmpty, trialEmpty]).2.1.get? 1 =
      some trialEmpty := by
  refine ⟨?_, ?_, ?_⟩
  · exact ((ask_fill_guarantee [pFloat] [trialEmpty, trialEmpty]
      clientTwoPoints).1 (by decide)).1
  · exact ((ask_fill_guarantee [pFloat] [trialEmpty, trialEmpty]
      clientInit).2 (by decide)).1
  · exact ((ask_fill_guarantee [pFloat] [trialEmpty, trialEmpty]
      clientInit).2 (by decide)).2 1 (by decide)


/-- C8: on an engine without fixed-feature support, the `TypeError` raised by
the fixed-feature-aware request is caught and the same trial is served through
the capability-free path; a `TypeError` is never the result of `_ask`'s
request step. -/
theorem ask_capability_fallback (vps : List VaryingParameter) (c : AxClient)
    (trial : Trial) :
    (c.supports_fixed_features = false →
      askOne vps c trial = askOnePlain vps c trial) ∧
    (∀ e, askOne vps c trial = .error e → e ≠ .typeError) := by
  constructor
  · intro hsup
    unfold askOne askOnePlain get_next_trial
    cases hnp : c.next_points <;> simp [hsup]
  · intro e he hte
    subst hte
    unfold askOne get_next_trial at he
    by_cases hsup : c.supports_fixed_features <;>
      cases hnp : c.next_points <;>
        rw [hnp] at he <;> simp [hsup] at he

/-- C8 witness: the engine without fixed-feature support serves the trial via
the plain path, identically. -/
theorem ask_capability_fallback_witness :
    askOne [pFloat] clientNoFF trialEmpty = askOnePlain [pFloat] clientNoFF trialEmpty ∧
    ∀ e, askOne [pFloat] clientNoFF trialEmpty = .error e → e ≠ .typeError := by
  exact ⟨(ask_capability_fallback [pFloat] clientNoFF trialEmpty).1 rfl,
    (ask_capability_fallback [pFloat] clientNoFF trialEmpty).2⟩

/-- C10: when the engine's per-name map lacks a declared varying-parameter
name, `_ask` still succeeds: the value list gets `none` at that parameter's
position, the engine trial id is recorded, and no error is raised. -/
theorem ask_missing_name_silent (vps : List VaryingParameter) (c : AxClient)
    (t : Trial) (pt : List (String × Int)) (rest : List (List (String × Int)))
    (hpt : c.next_points = pt :: rest) :
    (askOne vps c t).isOk = true ∧
    ∀ c1 t1, askOne vps c t = .ok (c1, t1) →
      t1.ax_trial_id = some c.trials.length ∧
      t1.parameter_values = vps.map (fun var => dictGet pt var.name) ∧
      ∀ k var, vps.get? k = some var → dictGet pt var.name = none →
        t1.parameter_values.get? k = some none := by
  have hspec := askOne_spec vps c t pt rest hpt
  constructor
  · rw [hspec]
    rfl
  · intro c1 t1 hok
    rw [hspec] at hok
    cases hok
    refine ⟨rfl, rfl, ?_⟩
    intro k var hvar hmiss
    dsimp only
    rw [List.get?_eq_getElem?, List.getElem?_map, ← List.get?_eq_getElem?, hvar]
    simp [hmiss]

/-- An engine whose next generated point names only `y9`, not `x0`. -/
def clientMissingName : AxClient :=
  ⟨[], gsInit, [], true, true, [[("y9", 5)]], none, []⟩

/-- The engine state after asking `clientMissingName`. -/
def clientMissingNameAfter : AxClient :=
  ⟨[⟨.pending, [("y9", some 5)], []⟩],
   ⟨[sobolStep, gpeiStep], 0, 1, none, none⟩, [], true, true, [], none, []⟩

/-- C10 witness: asking with declared parameter `x0` against the `y9`-only
point succeeds and stores `none` at position 0. -/
theorem ask_missing_name_silent_witness :
    (askOne [pFloat] clientMissingName trialEmpty).isOk = true ∧
    (⟨[pFloat], [none], .candidate, some 0, [], []⟩ : Trial).parameter_values.get? 0 =
      some none := by
  have h := ask_missing_name_silent [pFloat] clientMissingName trialEmpty
    [("y9", 5)] [] rfl
  refine ⟨h.1, ?_⟩
  exact (h.2 clientMissingNameAfter ⟨[pFloat], [none], .candidate, some 0, [], []⟩
    (by decide)).2.2 0 pFloat rfl (by decide)


/-- `npArgmin` on a non-empty list returns a value. -/
theorem npArgmin_isSome (x : Int) (xs : List Int) :
    ∃ p, npArgmin (x :: xs) = some p := by
  unfold npArgmin
  cases h : npArgmin xs with
  | none => exact ⟨(0, x), rfl⟩
  | some p =>
    obtain ⟨j, v⟩ := p
    by_cases hle : x ≤ v
    · exact ⟨(0, x), by simp [hle]⟩
    · exact ⟨(j + 1, v), by simp [hle]⟩

/-- `npArgmax` on a non-empty list returns a value. -/
theorem npArgmax_isSome (x : Int) (xs : List Int) :
    ∃ p, npArgmax (x :: xs) = some p := by
  unfold npArgmax
  cases h : npArgmax xs with
  | none => exact ⟨(0, x), rfl⟩
  | some p =>
    obtain ⟨j, v⟩ := p
    by_cases hle : v ≤ x
    · exact ⟨(0, x), by simp [hle]⟩
    · exact ⟨(j + 1, v), by simp [hle]⟩

/-- `npArgmin` returns the first occurrence of the minimum. -/
theorem npArgmin_spec (xs : List Int) :
    ∀ i v, npArgmin xs = some (i, v) → IsFirstMin xs i v := by
  induction xs with
  | nil => intro i v h; cases h
  | cons x xs ih =>
    intro i v h
    unfold npArgmin at h
    cases hx : npArgmin xs with
    | none =>
      rw [hx] at h
      cases h
      have hnil : xs = [] := by
        cases xs with
        | nil => rfl
        | cons y ys =>
          obtain ⟨p, hp⟩ := npArgmin_isSome y ys
          rw [hp] at hx
          cases hx
      subst hnil
      refine ⟨rfl, ?_, ?_⟩
      · intro j w hj
        cases j with
        | zero => cases hj; exact le_refl _
        | succ j => cases hj
      · intro j w hj0 _
        omega
    | some p =>
      obtain ⟨j, w⟩ := p
      rw [hx] at h
      dsimp only at h
      obtain ⟨hw1, hw2, hw3⟩ := ih j w hx
      by_cases hle : x ≤ w
      · rw [if_pos hle] at h
        cases h
        refine ⟨rfl, ?_, ?_⟩
        · intro k u hk
          cases k with
          | zero => cases hk; exact le_refl _
          | succ k =>
            rw [List.get?_cons_succ] at hk
            exact le_trans hle (hw2 k u hk)
        · intro k u hk0 _
          omega
      · rw [if_neg hle] at h
        cases h
        push_neg at hle
        refine ⟨by simpa using hw1, ?_, ?_⟩
        · intro k u hk
          cases k with
          | zero =>
            cases hk
            exact le_of_lt hle
          | succ k =>
            rw [List.get?_cons_succ] at hk
            exact hw2 k u hk
        · intro k u hklt hk
          cases k with
          | zero =>
            cases hk
            exact hle
          | succ k =>
            rw [List.get?_cons_succ] at hk
            exact hw3 k u (by omega) hk

/-- `npArgmax` returns the first occurrence of the maximum. -/
theorem npArgmax_spec (xs : List Int) :
    ∀ i v, npArgmax xs = some (i, v) → IsFirstMax xs i v := by
  induction xs with
  | nil => intro i v h; cases h
  | cons x xs ih =>
    intro i v h
    unfold npArgmax at h
    cases hx : npArgmax xs with
    | none =>
      rw [hx] at h
      cases h
      have hnil : xs = [] := by
        cases xs with
        | nil => rfl
        | cons y ys =>
          obtain ⟨p, hp⟩ := npArgmax_isSome y ys
          rw [hp] at hx
          cases hx
      subst hnil
      refine ⟨rfl, ?_, ?_⟩
      · intro j w hj
        cases j with
        | zero => cases hj; exact le_refl _
        | succ j => cases hj
      · intro j w hj0 _
        omega
    | some p =>
      obtain ⟨j, w⟩ := p
      rw [hx] at h
      dsimp only at h
      obtain ⟨hw1, hw2, hw3⟩ := ih j w hx
      by_cases hle : w ≤ x
      · rw [if_pos hle] at h
        cases h
        refine ⟨rfl, ?_, ?_⟩
        · intro k u hk
          cases k with
          | zero => cases hk; exact le_refl _
          | succ k =>
            rw [List.get?_cons_succ] at hk
            exact le_trans (hw2 k u hk) hle
        · intro k u hk0 _
          omega
      · rw [if_neg hle] at h
        cases h
        push_neg at hle
        refine ⟨by simpa using hw1, ?_, ?_⟩
        · intro k u hk
          cases k with
          | zero =>
            cases hk
            exact le_of_lt hle
          | succ k =>
            rw [List.get?_cons_succ] at hk
            exact hw2 k u hk
        · intro k u hklt hk
          cases k with
          | zero =>
            cases hk
            exact hle
          | succ k =>
            rw [List.get?_cons_succ] at hk
            exact hw3 k u (by omega) hk

/-- The extracted objective-value list has one entry per frontier point. -/
theorem extractObjVals_length (name : String) :
    ∀ (pareto : List (List (String × Int) × List (String × Int))) (vs : List Int),
    extractObjVals pareto name = .ok vs → vs.length = pareto.length := by
  intro pareto
  induction pareto with
  | nil => intro vs h; cases h; rfl
  | cons p ps ih =>
    intro vs h
    unfold extractObjVals at h
    cases hg : dictGet p.2 name with
    | none => rw [hg] at h; cases h
    | some v =>
      rw [hg] at h
      cases hr : extractObjVals ps name with
      | error e => rw [hr] at h; cases h
      | ok ws =>
        rw [hr] at h
        cases h
        simp [ih ws hr]


/-- C5 (amended): with a single configured objective, a best-value query for
that objective returns exactly what the engine's best-point query yields — in
particular an explicit `none` when the engine has no result (zero completed
trials) — and never raises. -/
theorem best_values_single_objective (cfg : GenConfig) (c : AxClient)
    (objName : String) (m : Bool) (hobjs : cfg.objectives = [⟨objName, m⟩]) :
    getBestValues cfg c objName = .ok c.best_parameters ∧
    (c.best_parameters = none → getBestValues cfg c objName = .ok none) := by
  have hmain : getBestValues cfg c objName = .ok c.best_parameters := by
    unfold getBestValues
    rw [hobjs]
    simp only [List.map_cons, List.map_nil, List.indexOf_cons_self, List.get?]
    dsimp only
    rw [if_neg (by simp)]
    cases hb : c.best_parameters <;> simp
  exact ⟨hmain, fun hb => by rw [hmain, hb]⟩

/-- C5 witness: the single-objective query with no engine result returns the
explicit absent value. -/
theorem best_values_single_objective_witness :
    getBestValues cfg1 clientNoData "f" = .ok none := by
  exact (best_values_single_objective cfg1 clientNoData "f" true rfl).2 rfl

/-- C5 counterexample: with two configured objectives and zero completed
trials (no engine trials, no best point, empty Pareto set), the best-value
query raises (`np.argmin` of an empty sequence) instead of returning an
explicit empty result. -/
theorem best_values_empty_multi_raises :
    getBestValues cfgTwoObj clientNoData "f1" =
      .error (.valueError "attempt to get argmin of an empty sequence") ∧
    clientNoData.trials = [] ∧
    clientNoData.best_parameters = none ∧
    clientNoData.pareto = [] := by
  refine ⟨by decide, rfl, rfl, rfl⟩

/-- C6: with more than one objective, the best-value query scans the Pareto
set: it extracts the requested objective's value for every frontier point and
returns the parameter values of the frontier point whose value is minimal
(when the objective minimizes) or maximal (otherwise), ties broken by the
first occurrence in iteration order. -/
theorem best_values_pareto (cfg : GenConfig) (c : AxClient) (objName : String)
    (objective : Objective) (objVals : List Int)
    (hfind : cfg.objectives.get?
      ((cfg.objectives.map (fun o => o.name)).indexOf objName) = some objective)
    (hmulti : cfg.objectives.length > 1)
    (hvals : extractObjVals c.pareto objective.name = .ok objVals)
    (hne : c.pareto ≠ []) :
    (objective.minimize = true →
      ∃ i v pt, npArgmin objVals = some (i, v) ∧ IsFirstMin objVals i v ∧
        (c.pareto.map (fun p => p.1)).get? i = some pt ∧
        getBestValues cfg c objName = .ok (some pt)) ∧
    (objective.minimize = false →
      ∃ i v pt, npArgmax objVals = some (i, v) ∧ IsFirstMax objVals i v ∧
        (c.pareto.map (fun p => p.1)).get? i = some pt ∧
        getBestValues cfg c objName = .ok (some pt)) := by
  have hlen : objVals.length = c.pareto.length :=
    extractObjVals_length objective.name c.pareto objVals hvals
  have hvne : objVals ≠ [] := by
    intro hcontra
    apply hne
    rw [hcontra] at hlen
    exact List.length_eq_zero.mp hlen.symm
  constructor
  · intro hmin
    obtain ⟨x, xs, hxs⟩ := List.exists_cons_of_ne_nil hvne
    obtain ⟨⟨i, v⟩, hp⟩ : ∃ p, npArgmin objVals = some p := by
      rw [hxs]
      exact npArgmin_isSome x xs
    have hspec := npArgmin_spec objVals i v hp
    have hilt : i < objVals.length := (List.get?_eq_some.mp hspec.1).choose
    have hptlt : i < (c.pareto.map (fun p => p.1)).length := by
      rw [List.length_map, ← hlen]
      exact hilt
    obtain ⟨pt, hpt⟩ :
        ∃ pt, (c.pareto.map (fun p => p.1)).get? i = some pt :=
      ⟨(c.pareto.map (fun p => p.1)).get ⟨i, hptlt⟩, by rw [List.get?_eq_get hptlt]⟩
    refine ⟨i, v, pt, hp, hspec, hpt, ?_⟩
    unfold getBestValues
    dsimp only
    rw [hfind]
    dsimp only
    rw [if_pos hmulti, hvals]
    dsimp only
    rw [hmin]
    simp only [eq_self_iff_true, if_true]
    rw [hp]
    dsimp only
    rw [hpt]
  · intro hmax
    obtain ⟨x, xs, hxs⟩ := List.exists_cons_of_ne_nil hvne
    obtain ⟨⟨i, v⟩, hp⟩ : ∃ p, npArgmax objVals = some p := by
      rw [hxs]
      exact npArgmax_isSome x xs
    have hspec := npArgmax_spec objVals i v hp
    have hilt : i < objVals.length := (List.get?_eq_some.mp hspec.1).choose
    have hptlt : i < (c.pareto.map (fun p => p.1)).length := by
      rw [List.length_map, ← hlen]
      exact hilt
    obtain ⟨pt, hpt⟩ :
        ∃ pt, (c.pareto.map (fun p => p.1)).get? i = some pt :=
      ⟨(c.pareto.map (fun p => p.1)).get ⟨i, hptlt⟩, by rw [List.get?_eq_get hptlt]⟩
    refine ⟨i, v, pt, hp, hspec, hpt, ?_⟩
    unfold getBestValues
    dsimp only
    rw [hfind]
    dsimp only
    rw [if_pos hmulti, hvals]
    dsimp only
    rw [hmax]
    simp only [Bool.false_eq_true, if_false]
    rw [hp]
    dsimp only
    rw [hpt]


/-- C6 witness: over the synthetic 3-point front, minimizing `f1` (values
`[5, 3, 3]`) picks the first of the two tied points (`x0 = 2`); maximizing
`f2` (values `[0, 4, 9]`) picks the last point (`x0 = 3`). -/
theorem best_values_pareto_witness :
    getBestValues cfgTwoObj clientPareto "f1" = .ok (some [("x0", 2)]) ∧
    getBestValues cfgTwoObj clientPareto "f2" = .ok (some [("x0", 3)]) := by
  constructor
  · obtain ⟨i, v, pt, hp, hspec, hpt, hres⟩ :=
      (best_values_pareto cfgTwoObj clientPareto "f1" ⟨"f1", true⟩ [5, 3, 3]
        rfl (by decide) (by decide) (by decide)).1 rfl
    have hiv : some (i, v) = some (1, 3) := by
      rw [← hp]
      decide
    injection hiv with hiv2
    injection hiv2 with h1 h2
    subst h1
    subst h2
    have hptv : some pt = some [("x0", 2)] := by
      rw [← hpt]
      decide
    injection hptv with hptv2
    subst hptv2
    exact hres
  · obtain ⟨i, v, pt, hp, hspec, hpt, hres⟩ :=
      (best_values_pareto cfgTwoObj clientPareto "f2" ⟨"f2", false⟩ [0, 4, 9]
        rfl (by decide) (by decide) (by decide)).2 rfl
    have hiv : some (i, v) = some (2, 9) := by
      rw [← hp]
      decide
    injection hiv with hiv2
    injection hiv2 with h1 h2
    subst h1
    subst h2
    have hptv : some pt = some [("x0", 3)] := by
      rw [← hpt]
      decide
    injection hptv with hptv2
    subst hptv2
    exact hres

/-- C9: when a fitted model is present, the serialization guard nulls both the
current step's fitted-model spec and the top-level cached model while leaving
the generation plan's structural state (steps with their counters, current
index, in-step trial count) unchanged; and merging a newer generator snapshot
keeps the original client reference in `self._ax_client` while the snapshot
client's fields are copied onto the object behind that reference. -/
theorem serialization_guard (gs : GenerationStrategy) (g : GeneratorRefs)
    (newRef : Nat) (newClient : AxClient) :
    (gs.fitted.isSome = true →
      (prepareToSend gs).curr_fitted_model = none ∧
      (prepareToSend gs).fitted = none ∧
      (prepareToSend gs).steps = gs.steps ∧
      (prepareToSend gs).currIndex = gs.currIndex ∧
      (prepareToSend gs).trialsInCurrStep = gs.trialsInCurrStep) ∧
    ((generatorUpdate g newRef newClient).ax_client_ref = g.ax_client_ref ∧
     (generatorUpdate g newRef newClient).store g.ax_client_ref = newClient) := by
  constructor
  · intro hf
    unfold prepareToSend
    rw [if_pos hf]
    exact ⟨rfl, rfl, rfl, rfl, rfl⟩
  · unfold generatorUpdate update_object
    dsimp only
    exact ⟨rfl, by simp⟩

/-- A generation strategy holding a fitted model handle. -/
def gsFitted : GenerationStrategy := ⟨[sobolStep, gpeiStep], 0, 2, some 7, some 7⟩

/-- A generator whose client reference 0 points at the fresh engine. -/
def gRefs : GeneratorRefs := ⟨fun _ => clientInit, 0⟩

/-- C9 witness: stripping `gsFitted` clears both model references and keeps
the plan counters; merging a snapshot into `gRefs` keeps reference 0 and
stores the snapshot client there. -/
theorem serialization_guard_witness :
    ((prepareToSend gsFitted).fitted = none ∧
     (prepareToSend gsFitted).steps = gsFitted.steps ∧
     (prepareToSend gsFitted).trialsInCurrStep = gsFitted.trialsInCurrStep) ∧
    ((generatorUpdate gRefs 1 clientNoFF).ax_client_ref = 0 ∧
     (generatorUpdate gRefs 1 clientNoFF).store 0 = clientNoFF) := by
  obtain ⟨h1, h2⟩ := serialization_guard gsFitted gRefs 1 clientNoFF
  obtain ⟨ha, hb, hc, hd, he⟩ := h1 rfl
  exact ⟨⟨hb, hc, he⟩, h2⟩

end Optimas
